import Mathlib

/-!
Verification of the Swiggy order-email extraction engine
(`src/email_text_parser.py`) and its pipeline driver (`src/data_pipeline.py`).

The Python code is shallowly embedded as total Lean functions:
fallible parses return `Option`, currency values are rationals,
`datetime` values are Gregorian calendar records with minute precision
(the one recognized timestamp grammar has no seconds field), and the
exception that escapes `run_pipeline` is modelled as `Except.error`.
-/

namespace Swiggy

/-- Whitespace characters of Python's regex class `\s` and of `str.strip`
(ASCII subset; the inputs of interest contain no exotic Unicode spaces). -/
def isPySpace (c : Char) : Bool :=
  c = ' ' || c = '\t' || c = '\n' || c = '\r' || c = '\x0b' || c = '\x0c'

/-- Python `str.strip()` on a character list. -/
def pyStrip (cs : List Char) : List Char :=
  ((cs.dropWhile isPySpace).reverse.dropWhile isPySpace).reverse

/-- If `pat` is a literal leading segment of `cs`, return the remainder. -/
def chopLit : List Char → List Char → Option (List Char)
  | [], cs => some cs
  | _ :: _, [] => none
  | p :: ps, c :: cs => if p = c then chopLit ps cs else none

/-- Python substring containment (the `in` operator) on character lists. -/
def hasSub (pat : List Char) : List Char → Bool
  | [] => (chopLit pat []).isSome
  | c :: cs => (chopLit pat (c :: cs)).isSome || hasSub pat cs

/-- Python `s in t` on strings. -/
def containsSub (pat s : String) : Bool := hasSub pat.data s.data

/-- Fuel-driven worker for `removeAll`; the fuel is the length of the text,
which suffices because every step consumes at least one character. -/
def removeAllF (pat : List Char) : Nat → List Char → List Char
  | _, [] => []
  | 0, cs => cs
  | fuel + 1, c :: cs =>
    match pat, chopLit pat (c :: cs) with
    | _ :: _, some rest => removeAllF pat fuel rest
    | _, _ => c :: removeAllF pat fuel cs

/-- Python `s.replace(pat, "")`: delete every occurrence of a nonempty
pattern, scanning left to right without overlap.  (All patterns passed by
the parser are nonempty label strings.) -/
def removeAll (pat cs : List Char) : List Char := removeAllF pat cs.length cs

/-! ### Python `float()` on rationals

`email_text_parser.extract_amount` calls `float` on the cleaned string.
We model the finite-decimal grammar of `float` exactly (optional sign,
digit runs with single underscores between digits, optional fraction,
optional exponent, surrounding whitespace); the `inf`/`nan` literals,
which no claim touches, have no rational value and are not modelled. -/

/-- Numeric value of a digit character. -/
def digVal (c : Char) : Nat := c.toNat - 48

/-- Consume a maximal run of digits in which single underscores may stand
between two digits (CPython number-literal rule); returns the value, the
number of digits consumed, and the remaining characters. -/
def digRunAux (acc k : Nat) : List Char → Nat × Nat × List Char
  | [] => (acc, k, [])
  | c :: cs =>
    if c.isDigit then digRunAux (10 * acc + digVal c) (k + 1) cs
    else if c = '_' && k != 0 then
      match cs with
      | d :: cs2 =>
        if d.isDigit then digRunAux (10 * acc + digVal d) (k + 1) cs2
        else (acc, k, c :: d :: cs2)
      | [] => (acc, k, [c])
    else (acc, k, c :: cs)

/-- Exponent digits after `e`/`E` and an optional sign; the whole string
must be consumed. -/
def expDigits (m k : Nat) (sign : Int) (cs : List Char) : Option (Nat × Nat × Int) :=
  match digRunAux 0 0 cs with
  | (d, kd, rest) =>
    if kd ≠ 0 ∧ rest = [] then some (m, k, sign * (d : Int)) else none

/-- Optional exponent part of a `float` literal. -/
def parseExpPart (m k : Nat) : List Char → Option (Nat × Nat × Int)
  | [] => some (m, k, 0)
  | c :: cs =>
    if c = 'e' ∨ c = 'E' then
      match cs with
      | '-' :: cs2 => expDigits m k (-1) cs2
      | '+' :: cs2 => expDigits m k 1 cs2
      | _ => expDigits m k 1 cs
    else none

/-- Decompose an unsigned `float` literal into mantissa numerator, number
of fractional digits, and exponent: the value is `m / 10^k * 10^e`. -/
def pyDecompose (cs : List Char) : Option (Nat × Nat × Int) :=
  match digRunAux 0 0 cs with
  | (n, k1, r1) =>
    match r1 with
    | '.' :: r2 =>
      (match digRunAux 0 0 r2 with
       | (f, k2, r3) =>
         if k1 = 0 ∧ k2 = 0 then none
         else parseExpPart (n * 10 ^ k2 + f) k2 r3)
    | _ => if k1 = 0 then none else parseExpPart n 0 r1

/-- Rational value `sign * m / 10^k * 10^e` of a decomposed `float`
literal, assembled with `mkRat` so that all arithmetic is on `Int` and
`Nat`. -/
def pyFloatVal (sign : Int) (m k : Nat) (e : Int) : ℚ :=
  if 0 ≤ e then mkRat (sign * m * 10 ^ e.toNat) (10 ^ k)
  else mkRat (sign * m) (10 ^ k * 10 ^ (-e).toNat)

/-- Python `float(s)` on a character list: strip whitespace, optional
sign, then an unsigned literal. -/
def pyFloat (cs : List Char) : Option ℚ :=
  let t := pyStrip cs
  if t.head? = some '-' then
    (pyDecompose t.tail).map fun mke => pyFloatVal (-1) mke.1 mke.2.1 mke.2.2
  else if t.head? = some '+' then
    (pyDecompose t.tail).map fun mke => pyFloatVal 1 mke.1 mke.2.1 mke.2.2
  else
    (pyDecompose t).map fun mke => pyFloatVal 1 mke.1 mke.2.1 mke.2.2

/-- Cleaning stage of `SwiggyEmailParser.extract_amount`
(`email_text_parser.py` lines 19-22): remove every `₹` and every comma,
strip, then drop a single leading minus sign. -/
def cleanAmount (s : String) : List Char :=
  let t := pyStrip ((s.data.filter (fun c => c ≠ '₹')).filter (fun c => c ≠ ','))
  if t.head? = some '-' then t.tail else t

/-- `SwiggyEmailParser.extract_amount` (`email_text_parser.py` lines
16-25): clean the string and convert with `float`; any conversion
failure is caught and becomes `0.0`. -/
def extract_amount (s : String) : ℚ :=
  match pyFloat (cleanAmount s) with
  | some q => q
  | none => 0

/-! ### The timestamp grammar

`SwiggyEmailParser.parse_datetime` (`email_text_parser.py` lines 9-14)
is `datetime.strptime(s.strip(), "%A, %B %d, %Y %I:%M %p")` with
`ValueError` mapped to `None`.  We embed the semantics of that format
string exactly as CPython's `_strptime` compiles it: names match
case-insensitively, whitespace in the format matches one or more
whitespace characters, `%d` is `3[01]|[12]\d|0[1-9]|[1-9]`, `%Y` is four
digits, `%I` is `1[0-2]|0[1-9]|[1-9]`, `%M` is `[0-5]\d|\d`, `%p` is
`am|pm`, the whole string must be consumed, alternations backtrack, and
the resulting `datetime` construction validates the day against the
month length (and the year against `MINYEAR = 1`).  The parsed weekday
is not checked against the date, exactly as in `strptime`. -/

structure DateTime where
  year : Nat
  month : Nat
  day : Nat
  hour : Nat
  minute : Nat
deriving DecidableEq, Repr

/-- Gregorian leap-year rule (as in Python's `calendar.isleap`). -/
def isLeapYear (y : Nat) : Bool :=
  y % 4 == 0 && (y % 100 != 0 || y % 400 == 0)

/-- Length of a month, as validated by the `datetime` constructor. -/
def monthLen (y m : Nat) : Nat :=
  if m = 2 then (if isLeapYear y then 29 else 28)
  else if m = 4 ∨ m = 6 ∨ m = 9 ∨ m = 11 then 30
  else 31

/-- Days in the given year that precede the first of month `m`. -/
def daysBeforeMonth (y m : Nat) : Nat :=
  (List.range (m - 1)).foldl (fun acc i => acc + monthLen y (i + 1)) 0

/-- Proleptic-Gregorian ordinal of a date, exactly
`datetime.date.toordinal` (day 1 is January 1 of year 1). -/
def toOrdinal (y m d : Nat) : Nat :=
  365 * (y - 1) + (y - 1) / 4 + (y - 1) / 400 - (y - 1) / 100
    + daysBeforeMonth y m + d

/-- Minutes since the proleptic epoch; differences of this quantity are
exactly Python's `timedelta.total_seconds() / 60` for two minute-precise
`datetime` values. -/
def toMinutes (t : DateTime) : Nat :=
  1440 * toOrdinal t.year t.month t.day + 60 * t.hour + t.minute

/-- Weekday names of the C locale, lowercased; `strptime` parses the
weekday but never uses it (the values here are the locale indices). -/
def weekdayTbl : List (String × Nat) :=
  [("monday", 0), ("tuesday", 1), ("wednesday", 2), ("thursday", 3),
   ("friday", 4), ("saturday", 5), ("sunday", 6)]

/-- Month names of the C locale, lowercased, with their month numbers. -/
def monthTbl : List (String × Nat) :=
  [("january", 1), ("february", 2), ("march", 3), ("april", 4),
   ("may", 5), ("june", 6), ("july", 7), ("august", 8),
   ("september", 9), ("october", 10), ("november", 11), ("december", 12)]

/-- Match one name of the table as a leading segment of the (lowercased)
input.  No table name is a leading segment of another, so the regex
alternation order is immaterial. -/
def matchNameTbl (tbl : List (String × Nat)) (cs : List Char) : Option (Nat × List Char) :=
  match tbl with
  | [] => none
  | (s, v) :: rest =>
    match chopLit s.data cs with
    | some r => some (v, r)
    | none => matchNameTbl rest cs

/-- Whitespace in the format string compiles to `\s+`: one mandatory
whitespace character followed greedily by any further whitespace. -/
def ws1 : List Char → Option (List Char)
  | [] => none
  | c :: cs => if isPySpace c then some (cs.dropWhile isPySpace) else none

/-- Final step of `strptime`: the input must be exhausted, the 12-hour
value is folded with am/pm, and the `datetime` constructor validates the
date. -/
def finishParse (y mo d h12 mi : Nat) (pm : Bool) (cs : List Char) : Option DateTime :=
  if cs = [] then
    let h := if pm then (if h12 = 12 then 12 else h12 + 12)
             else (if h12 = 12 then 0 else h12)
    if 1 ≤ y ∧ 1 ≤ d ∧ d ≤ monthLen y mo then some ⟨y, mo, d, h, mi⟩ else none
  else none

/-- Directive `%p`: `am` or `pm` (input already lowercased). -/
def parseAmPm (y mo d h12 mi : Nat) (cs : List Char) : Option DateTime :=
  match chopLit ['a', 'm'] cs with
  | some r => finishParse y mo d h12 mi false r
  | none =>
    match chopLit ['p', 'm'] cs with
    | some r => finishParse y mo d h12 mi true r
    | none => none

/-- After `%M`: mandatory whitespace, then `%p`. -/
def afterMin (y mo d h12 mi : Nat) (cs : List Char) : Option DateTime :=
  match ws1 cs with
  | some r => parseAmPm y mo d h12 mi r
  | none => none

/-- Directive `%M` = `[0-5]\d|\d`, with regex backtracking into the rest
of the pattern. -/
def parseMin (y mo d h12 : Nat) (cs : List Char) : Option DateTime :=
  (match cs with
   | a :: b :: r =>
     if ('0' ≤ a ∧ a ≤ '5') ∧ b.isDigit then
       afterMin y mo d h12 (10 * digVal a + digVal b) r
     else none
   | _ => none) <|>
  (match cs with
   | a :: r => if a.isDigit then afterMin y mo d h12 (digVal a) r else none
   | _ => none)

/-- After `%I`: the literal colon, then `%M`. -/
def afterHour (y mo d h12 : Nat) (cs : List Char) : Option DateTime :=
  match cs with
  | ':' :: r => parseMin y mo d h12 r
  | _ => none

/-- Directive `%I` = `1[0-2]|0[1-9]|[1-9]`, with backtracking. -/
def parseHour (y mo d : Nat) (cs : List Char) : Option DateTime :=
  (match cs with
   | '1' :: b :: r =>
     if '0' ≤ b ∧ b ≤ '2' then afterHour y mo d (10 + digVal b) r else none
   | '0' :: b :: r =>
     if b.isDigit ∧ b ≠ '0' then afterHour y mo d (digVal b) r else none
   | _ => none) <|>
  (match cs with
   | a :: r => if a.isDigit ∧ a ≠ '0' then afterHour y mo d (digVal a) r else none
   | _ => none)

/-- Directive `%Y`: exactly four digits, then mandatory whitespace and
`%I`. -/
def parseYear (mo d : Nat) (cs : List Char) : Option DateTime :=
  match cs with
  | a :: b :: c :: e :: r =>
    if a.isDigit ∧ b.isDigit ∧ c.isDigit ∧ e.isDigit then
      match ws1 r with
      | some r2 =>
        parseHour (1000 * digVal a + 100 * digVal b + 10 * digVal c + digVal e) mo d r2
      | none => none
    else none
  | _ => none

/-- After `%d`: the literal comma, mandatory whitespace, then `%Y`. -/
def afterDay (mo d : Nat) (cs : List Char) : Option DateTime :=
  match cs with
  | ',' :: r =>
    (match ws1 r with
     | some r2 => parseYear mo d r2
     | none => none)
  | _ => none

/-- Directive `%d` = `3[01]|[12]\d|0[1-9]|[1-9]`, with backtracking. -/
def parseDay (mo : Nat) (cs : List Char) : Option DateTime :=
  (match cs with
   | '3' :: b :: r => if b = '0' ∨ b = '1' then afterDay mo (30 + digVal b) r else none
   | a :: b :: r =>
     if (a = '1' ∨ a = '2') ∧ b.isDigit then afterDay mo (10 * digVal a + digVal b) r
     else if a = '0' ∧ (b.isDigit ∧ b ≠ '0') then afterDay mo (digVal b) r
     else none
   | _ => none) <|>
  (match cs with
   | a :: r => if a.isDigit ∧ a ≠ '0' then afterDay mo (digVal a) r else none
   | _ => none)

/-- Lowercased, stripped character view of the input: `parse_datetime`
strips the string and the compiled pattern matches case-insensitively. -/
def normChars (s : String) : List Char :=
  (pyStrip s.data).map Char.toLower

/-- `SwiggyEmailParser.parse_datetime` (`email_text_parser.py` lines
9-14). -/
def parse_datetime (s : String) : Option DateTime :=
  match matchNameTbl weekdayTbl (normChars s) with
  | none => none
  | some (_, r1) =>
    match r1 with
    | ',' :: r2 =>
      (match ws1 r2 with
       | none => none
       | some r3 =>
         match matchNameTbl monthTbl r3 with
         | none => none
         | some (mo, r4) =>
           match ws1 r4 with
           | none => none
           | some r5 => parseDay mo r5)
    | _ => none

/-! ### The record and the marker scans

`SwiggyEmailParser.parse_email` (`email_text_parser.py` lines 27-134)
normalizes the body to lines and then runs four ad hoc marker scans over
the line list.  The dictionary `order_info` becomes the structure
`OrderInfo`; `discount_amount` is initialized to `0.0` and only ever
overwritten by a rational, so it is a plain `ℚ` while the other value
fields are `Option`s. -/

structure OrderInfo where
  restaurant_name : Option String
  order_time : Option DateTime
  delivery_time : Option DateTime
  delivery_duration_mins : Option Int
  total_amount : Option ℚ
  discount_amount : ℚ
deriving DecidableEq, Repr

/-- Boilerplate lines skipped by the restaurant-name scan
(`email_text_parser.py` line 63). -/
def denyNames : List String := ["Order", "Your Order Summary:", "Order No:"]

/-- Inner loop of the restaurant scan: the first nonempty line after the
marker that is not boilerplate. -/
def firstGoodName : List String → Option String
  | [] => none
  | l :: rest => if l ≠ "" ∧ l ∉ denyNames then some l else firstGoodName rest

/-- Restaurant-name scan (`email_text_parser.py` lines 58-68): at each
line equal to `"Restaurant"`, search all following lines for a usable
name; the first marker occurrence that yields a name wins. -/
def findRestaurant : List String → Option String
  | [] => none
  | l :: rest =>
    if l = "Restaurant" then
      match firstGoodName rest with
      | some n => some n
      | none => findRestaurant rest
    else findRestaurant rest

/-- Python `lines[j].replace(lbl, "").strip()` as used by the timestamp
window scans. -/
def stripLabel (lbl : String) (s : String) : String :=
  String.mk (pyStrip (removeAll lbl.data s.data))

/-- One window position of a timestamp scan: line `j`, if it exists,
with the label text deleted, fed to `parse_datetime`. -/
def tryTimeAt (lbl : String) (lines : List String) (j : Nat) : Option DateTime :=
  (lines.get? j).bind fun l => parse_datetime (stripLabel lbl l)

/-- Bounded window of a timestamp scan (`email_text_parser.py` lines
74-79 and 83-88): positions `i`, `i+1`, `i+2` (clipped at the end of the
list by `range(i, min(i + 3, len(lines)))`), first successful parse
wins. -/
def scanTimeWindow (lbl : String) (lines : List String) (i : Nat) : Option DateTime :=
  tryTimeAt lbl lines i <|> tryTimeAt lbl lines (i + 1) <|> tryTimeAt lbl lines (i + 2)

def placedLbl : String := "Order placed at:"

def deliveredLbl : String := "Order delivered at:"

/-- One iteration of the timestamp loop (`email_text_parser.py` lines
71-88): an `if`/`elif` on the current line; a successful window scan
overwrites the accumulator, a failed one leaves it unchanged. -/
def timesStep (lines : List String) (acc : Option DateTime × Option DateTime) (i : Nat) :
    Option DateTime × Option DateTime :=
  let l := lines.getD i ""
  if containsSub placedLbl l then
    ((match scanTimeWindow placedLbl lines i with
      | some v => some v
      | none => acc.1), acc.2)
  else if containsSub deliveredLbl l then
    (acc.1, (match scanTimeWindow deliveredLbl lines i with
             | some v => some v
             | none => acc.2))
  else acc

/-- The timestamp loop over all lines. -/
def extractTimes (lines : List String) : Option DateTime × Option DateTime :=
  (List.range lines.length).foldl (timesStep lines) (none, none)

/-- The currency symbol. -/
def rupeeSym : String := "₹"

/-- One window position of the primary total scan (`email_text_parser.py`
lines 100-105): the line must contain the currency symbol and its
extracted amount must be positive. -/
def tryTotalAt (lines : List String) (j : Nat) : Option ℚ :=
  (lines.get? j).bind fun l =>
    if containsSub rupeeSym l then
      (if 0 < extract_amount l then some (extract_amount l) else none)
    else none

/-- Bounded window of the primary total scan. -/
def scanTotalWindow (lines : List String) (i : Nat) : Option ℚ :=
  tryTotalAt lines i <|> tryTotalAt lines (i + 1) <|> tryTotalAt lines (i + 2)

/-- One window position of the discount scan (`email_text_parser.py`
lines 110-113): the line must contain the currency symbol and a minus
character; whatever `extract_amount` returns is stored. -/
def tryDiscAt (lines : List String) (j : Nat) : Option ℚ :=
  (lines.get? j).bind fun l =>
    if containsSub rupeeSym l ∧ containsSub "-" l then some (extract_amount l) else none

/-- Bounded window of the discount scan. -/
def scanDiscWindow (lines : List String) (i : Nat) : Option ℚ :=
  tryDiscAt lines i <|> tryDiscAt lines (i + 1) <|> tryDiscAt lines (i + 2)

/-- Label test of the primary total scan (`email_text_parser.py` line 98). -/
def totalLblHit (l : String) : Bool :=
  containsSub "Order Total:" l || containsSub "Paid Via" l

/-- One iteration of the amounts loop (`email_text_parser.py` lines
96-113): two independent `if`s over the same line, updating the total
and the discount. -/
def amountsStep (lines : List String) (acc : Option ℚ × ℚ) (i : Nat) : Option ℚ × ℚ :=
  let l := lines.getD i ""
  let t := if totalLblHit l then
      (match scanTotalWindow lines i with
       | some v => some v
       | none => acc.1)
    else acc.1
  let d := if containsSub "Discount Applied" l then
      (match scanDiscWindow lines i with
       | some v => v
       | none => acc.2)
    else acc.2
  (t, d)

/-- The amounts loop over all lines; the discount starts at `0.0`. -/
def extractAmounts (lines : List String) : Option ℚ × ℚ :=
  (List.range lines.length).foldl (amountsStep lines) (none, 0)

/-- First match of the regex `₹\s*[\d,]+(?:\.\d{2})?` at the head of the
text, as the matched characters: symbol, greedy whitespace, a nonempty
run of digits and commas, and optionally a dot followed by exactly two
digits. -/
def matchRupeeAt (cs : List Char) : Option (List Char) :=
  match cs with
  | [] => none
  | c :: rest =>
    if c = '₹' then
      let ws := rest.takeWhile isPySpace
      let r1 := rest.dropWhile isPySpace
      let digs := r1.takeWhile (fun c => c.isDigit || c = ',')
      let r2 := r1.dropWhile (fun c => c.isDigit || c = ',')
      if digs = [] then none
      else
        (match r2 with
         | d :: a :: b :: _ =>
           if d = '.' ∧ a.isDigit ∧ b.isDigit then some ('₹' :: (ws ++ digs ++ ['.', a, b]))
           else some ('₹' :: (ws ++ digs))
         | _ => some ('₹' :: (ws ++ digs)))
    else none

/-- Leftmost match of the currency-token regex in a line, i.e.
`re.findall(...)[0]` when it exists. -/
def firstRupeeTok : List Char → Option (List Char)
  | [] => none
  | c :: cs =>
    match matchRupeeAt (c :: cs) with
    | some m => some m
    | none => firstRupeeTok cs

/-- Label test of the fallback total pass (`email_text_parser.py` line
119). -/
def fallbackLblHit (l : String) : Bool :=
  containsSub "Order Total:" l || containsSub "Paid Via" l || containsSub "Total Payable:" l

/-- Fallback total pass (`email_text_parser.py` lines 115-123): rescan
all lines; at the first label line holding a currency token, extract the
token's amount and stop; label lines without a token are passed over. -/
def fallbackTotal : List String → Option ℚ
  | [] => none
  | l :: rest =>
    if fallbackLblHit l then
      (match firstRupeeTok l.data with
       | some tok => some (extract_amount (String.mk tok))
       | none => fallbackTotal rest)
    else fallbackTotal rest

/-- Python truthiness of the total slot at `email_text_parser.py` line
116: `not order_info['total_amount']` is true for `None` and for `0.0`. -/
def pyFalsyTotal (t : Option ℚ) : Bool :=
  match t with
  | none => true
  | some v => if v = 0 then true else false

/-- Body of `parse_email` after normalization: the four scans, the
derived duration (signed minutes, exact because both timestamps have
minute precision), and the fallback total pass. -/
def extractOrderInfo (lines : List String) : OrderInfo :=
  let name := findRestaurant lines
  let ts := extractTimes lines
  let dur : Option Int :=
    match ts.1, ts.2 with
    | some a, some b => some ((toMinutes b : Int) - (toMinutes a : Int))
    | _, _ => none
  let am := extractAmounts lines
  let tot :=
    if pyFalsyTotal am.1 then
      (match fallbackTotal lines with
       | some v => some v
       | none => am.1)
    else am.1
  ⟨name, ts.1, ts.2, dur, tot, am.2⟩

/-- Required-field validation (`email_text_parser.py` lines 125-131):
truthy restaurant name (non-`None`, nonempty), truthy timestamps
(`datetime` objects are always truthy), and a total that is not `None`
(zero passes). -/
def validOrder (r : OrderInfo) : Bool :=
  (match r.restaurant_name with
   | some n => n ≠ ""
   | none => false) &&
  r.order_time.isSome && r.delivery_time.isSome && r.total_amount.isSome

/-- `parse_email` from the normalized line list on: extract, then return
the record only if validation passes. -/
def parseLines (lines : List String) : Option OrderInfo :=
  let r := extractOrderInfo lines
  if validOrder r then some r else none

/-- `SwiggyEmailParser.parse_email` (`email_text_parser.py` lines
27-134).  The HTML-to-lines normalization (BeautifulSoup with
script/style removal, `get_text('\n')`, split, strip, drop empties) is
an external permissive-parser collaborator and is passed as a function;
an empty body short-circuits to `None` at line 29. -/
def parse_email (normalize : String → List String) (email_text : String) : Option OrderInfo :=
  if email_text = "" then none
  else parseLines (normalize email_text)

/-! ### The pipeline driver

`SwiggyDataPipeline.run_pipeline` (`data_pipeline.py` lines 19-107).
The mail provider is passed in: `details` models
`GmailClient.get_email_details`, returning `None` on any fetch failure.
Two remarks on fidelity, both visible in the source:

* the content-marker report loop at `data_pipeline.py` lines 57-61 only
  prints; it reads `Config.ORDER_CONTENT_MARKERS`, an attribute that
  `config.py` does not define, so in Python it would itself raise
  `AttributeError` — the loop is modelled as the no-op it was meant to
  be, which is the reading most favourable to the claim under test;
* when `parse_email` returns `None`, line 71 calls
  `self.email_parser.parse_email(email_body, debug=True)`, but
  `parse_email` accepts no `debug` keyword, so Python raises `TypeError`
  before the item is appended to `failed_emails` at line 75; the
  uncaught exception is modelled as `Except.error`. -/

structure EmailData where
  subject : String
  sender : String
  date : String
  body : String
deriving DecidableEq, Repr

structure FailedEmail where
  id : String
  subject : String
  date : String
deriving DecidableEq, Repr

structure PipelineResult where
  processed : List (String × OrderInfo)
  failed : List FailedEmail
deriving DecidableEq, Repr

/-- The exception text raised at `data_pipeline.py` line 71. -/
def debugCallError : String :=
  "TypeError: parse_email() got an unexpected keyword argument debug"

/-- The per-message loop of `run_pipeline` (`data_pipeline.py` lines
37-88): a failed fetch is skipped (without being recorded anywhere); a
successful parse is appended to the processed orders; a failed parse
raises at line 71. -/
def processEmails (normalize : String → List String) (details : String → Option EmailData) :
    List String → List (String × OrderInfo) → List FailedEmail → Except String PipelineResult
  | [], ps, fs => Except.ok ⟨ps.reverse, fs.reverse⟩
  | mid :: rest, ps, fs =>
    match details mid with
    | none => processEmails normalize details rest ps fs
    | some ed =>
      match parse_email normalize ed.body with
      | none => Except.error debugCallError
      | some oi => processEmails normalize details rest ((mid, oi) :: ps) fs

/-- `SwiggyDataPipeline.run_pipeline` over a list of message ids (the
empty-search early return at line 28 coincides with the empty result). -/
def run_pipeline (normalize : String → List String) (details : String → Option EmailData)
    (messages : List String) : Except String PipelineResult :=
  processEmails normalize details messages [] []

/-! ### Concrete bodies used by the claims -/

/-- Normalized lines of the end-to-end scenario of spec section 8. -/
def demoLines : List String :=
  ["Restaurant", "Spice Hub", "Order placed at:", "Monday, March 3, 2025 1:00 PM",
   "Order delivered at:", "Monday, March 3, 2025 1:40 PM", "Order Total:", "₹350.00"]

/-- The scenario record produced on `demoLines`. -/
def demoRecord : OrderInfo :=
  ⟨some "Spice Hub", some ⟨2025, 3, 3, 13, 0⟩, some ⟨2025, 3, 3, 13, 40⟩,
   some 40, some 350, 0⟩

/-- The scenario with the two timestamps swapped. -/
def demoLinesSwapped : List String :=
  ["Restaurant", "Spice Hub", "Order placed at:", "Monday, March 3, 2025 1:40 PM",
   "Order delivered at:", "Monday, March 3, 2025 1:00 PM", "Order Total:", "₹350.00"]

/-! ### Characterization of the scan loops

Each of the four windowed scans is a left fold that overwrites its slot
whenever the window at the current label line succeeds.  We name the
per-index "hit" functions and characterize the folds: the surviving
value is the one of the last index whose hit succeeds. -/

/-- Hit of the order-time scan at index `i`: the window value when line
`i` carries the label, nothing otherwise. -/
def placedHit (lines : List String) (i : Nat) : Option DateTime :=
  if containsSub placedLbl (lines.getD i "") then scanTimeWindow placedLbl lines i else none

/-- Hit of the delivery-time scan at index `i` (the `elif` makes it
fire only when the placed label is absent from the line). -/
def deliveredHit (lines : List String) (i : Nat) : Option DateTime :=
  if ¬ containsSub placedLbl (lines.getD i "") ∧ containsSub deliveredLbl (lines.getD i "") then
    scanTimeWindow deliveredLbl lines i
  else none

/-- Hit of the primary total scan at index `i`. -/
def totalHit (lines : List String) (i : Nat) : Option ℚ :=
  if totalLblHit (lines.getD i "") then scanTotalWindow lines i else none

/-- Hit of the discount scan at index `i`. -/
def discHit (lines : List String) (i : Nat) : Option ℚ :=
  if containsSub "Discount Applied" (lines.getD i "") then scanDiscWindow lines i else none

variable {α : Type}

/-- Overwrite step: a successful hit replaces the accumulator. -/
def ovStep (f : Nat → Option α) (acc : Option α) (i : Nat) : Option α :=
  match f i with
  | some v => some v
  | none => acc

/-- Value surviving after scanning indices `0, …, n-1`. -/
def lastHit (f : Nat → Option α) (n : Nat) : Option α :=
  (List.range n).foldl (ovStep f) none

/-- Overwrite step on a bare value (the discount slot starts at `0.0`
rather than `None`). -/
def dvStep (f : Nat → Option ℚ) (acc : ℚ) (i : Nat) : ℚ :=
  match f i with
  | some v => v
  | none => acc

theorem foldl_pair_decomp {α β γ : Type} (st : α × β → γ → α × β)
    (g1 : α → γ → α) (g2 : β → γ → β)
    (hst : ∀ p i, st p i = (g1 p.1 i, g2 p.2 i)) :
    ∀ (is : List γ) (p : α × β), is.foldl st p = (is.foldl g1 p.1, is.foldl g2 p.2) := by
  intro is
  induction is with
  | nil => intro p; rfl
  | cons i is ih =>
    intro p
    simp only [List.foldl_cons, hst p i, ih]

theorem timesStep_decomp (lines : List String) :
    ∀ (p : Option DateTime × Option DateTime) (i : Nat),
      timesStep lines p i = (ovStep (placedHit lines) p.1 i, ovStep (deliveredHit lines) p.2 i) := by
  intro p i
  simp only [timesStep, ovStep, placedHit, deliveredHit]
  split_ifs <;>
    first
      | tauto
      | (cases scanTimeWindow placedLbl lines i <;> rfl)
      | (cases scanTimeWindow deliveredLbl lines i <;> rfl)

theorem extractTimes_eq (lines : List String) :
    extractTimes lines =
      (lastHit (placedHit lines) lines.length, lastHit (deliveredHit lines) lines.length) := by
  unfold extractTimes lastHit
  exact foldl_pair_decomp _ _ _ (timesStep_decomp lines) _ _

theorem amountsStep_decomp (lines : List String) :
    ∀ (p : Option ℚ × ℚ) (i : Nat),
      amountsStep lines p i = (ovStep (totalHit lines) p.1 i, dvStep (discHit lines) p.2 i) := by
  intro p i
  simp only [amountsStep, ovStep, dvStep, totalHit, discHit]
  split_ifs <;>
    first
      | tauto
      | (cases scanTotalWindow lines i <;> cases scanDiscWindow lines i <;> rfl)

theorem extractAmounts_eq (lines : List String) :
    extractAmounts lines =
      ((List.range lines.length).foldl (ovStep (totalHit lines)) none,
       (List.range lines.length).foldl (dvStep (discHit lines)) 0) := by
  unfold extractAmounts
  exact foldl_pair_decomp _ _ _ (amountsStep_decomp lines) _ _

theorem foldl_dvStep_eq_getD (f : Nat → Option ℚ) :
    ∀ (is : List Nat) (o : Option ℚ) (c : ℚ),
      is.foldl (dvStep f) (o.getD c) = (is.foldl (ovStep f) o).getD c := by
  intro is
  induction is with
  | nil => intro o c; rfl
  | cons i is ih =>
    intro o c
    have hstep : dvStep f (o.getD c) i = (ovStep f o i).getD c := by
      unfold dvStep ovStep
      cases f i <;> simp
    simp only [List.foldl_cons, hstep, ih]

theorem discount_eq_lastHit (lines : List String) :
    (extractAmounts lines).2 = (lastHit (discHit lines) lines.length).getD 0 := by
  rw [extractAmounts_eq]
  exact foldl_dvStep_eq_getD (discHit lines) (List.range lines.length) none 0

/-- Spec of `lastHit`: either no index hits, or the surviving value is
the hit of the last index that does. -/
theorem lastHit_spec (f : Nat → Option α) (n : Nat) :
    (lastHit f n = none ∧ ∀ i, i < n → f i = none) ∨
    (∃ i, i < n ∧ lastHit f n = f i ∧ (f i).isSome ∧ ∀ j, i < j → j < n → f j = none) := by
  induction n with
  | zero => exact Or.inl ⟨rfl, fun i hi => absurd hi (by omega)⟩
  | succ n ih =>
    have hstep : lastHit f (n + 1) = ovStep f (lastHit f n) n := by
      unfold lastHit
      rw [List.range_succ, List.foldl_append]
      rfl
    cases hfn : f n with
    | some v =>
      refine Or.inr ⟨n, Nat.lt_succ_self n, ?_, by simp [hfn], fun j h1 h2 => absurd h1 (by omega)⟩
      rw [hstep]
      unfold ovStep
      rw [hfn]
    | none =>
      have hkeep : lastHit f (n + 1) = lastHit f n := by
        rw [hstep]; unfold ovStep; rw [hfn]
      cases ih with
      | inl h =>
        refine Or.inl ⟨by rw [hkeep]; exact h.1, fun i hi => ?_⟩
        rcases Nat.lt_succ_iff_lt_or_eq.mp hi with h' | h'
        · exact h.2 i h'
        · rw [h']; exact hfn
      | inr h =>
        obtain ⟨i, hi, heq, hsome, hafter⟩ := h
        refine Or.inr ⟨i, by omega, by rw [hkeep]; exact heq, hsome, fun j h1 h2 => ?_⟩
        rcases Nat.lt_succ_iff_lt_or_eq.mp h2 with h' | h'
        · exact hafter j h1 h'
        · rw [h']; exact hfn

theorem orElse_eq_some_cases {α : Type} {a b : Option α} {v : α}
    (h : (a <|> b) = some v) : a = some v ∨ (a = none ∧ b = some v) := by
  cases a with
  | some w =>
    left
    simpa using h
  | none =>
    right
    exact ⟨rfl, by simpa using h⟩

/-- First-success-wins spec of a three-position window built with
`orElse`. -/
theorem window3_spec (g : Nat → Option α) (i : Nat) (v : α)
    (h : (g i <|> g (i + 1) <|> g (i + 2)) = some v) :
    ∃ j, i ≤ j ∧ j < i + 3 ∧ g j = some v ∧ ∀ k, i ≤ k → k < j → g k = none := by
  rcases orElse_eq_some_cases h with h0 | ⟨h0, h'⟩
  · exact ⟨i, Nat.le_refl i, by omega, h0, fun k hk1 hk2 => absurd hk1 (by omega)⟩
  rcases orElse_eq_some_cases h' with h1 | ⟨h1, h2⟩
  · refine ⟨i + 1, by omega, by omega, h1, fun k hk1 hk2 => ?_⟩
    have hk : k = i := by omega
    rw [hk]; exact h0
  · refine ⟨i + 2, by omega, by omega, h2, fun k hk1 hk2 => ?_⟩
    rcases (by omega : k = i ∨ k = i + 1) with hk | hk <;> rw [hk]
    · exact h0
    · exact h1

/-! ### Support lemmas for the claims -/

theorem tryTotalAt_spec {lines : List String} {j : Nat} {q : ℚ}
    (h : tryTotalAt lines j = some q) :
    0 < q ∧ j < lines.length ∧ containsSub rupeeSym (lines.getD j "") = true ∧
      extract_amount (lines.getD j "") = q := by
  unfold tryTotalAt at h
  rw [Option.bind_eq_some] at h
  obtain ⟨l, hg, h⟩ := h
  have hlen : j < lines.length := by
    by_contra hge
    push_neg at hge
    rw [List.get?_eq_none.mpr hge] at hg
    cases hg
  have hD : lines.getD j "" = l := by rw [List.getD_eq_get?, hg]; rfl
  by_cases hsym : containsSub rupeeSym l = true
  · rw [if_pos hsym] at h
    by_cases hpos : 0 < extract_amount l
    · rw [if_pos hpos] at h
      have hq : extract_amount l = q := by injection h
      rw [hD]
      exact ⟨hq ▸ hpos, hlen, hsym, hq⟩
    · rw [if_neg hpos] at h; cases h
  · rw [if_neg hsym] at h; cases h

theorem scanTotalWindow_spec {lines : List String} {i : Nat} {q : ℚ}
    (h : scanTotalWindow lines i = some q) :
    0 < q ∧ ∃ j, i ≤ j ∧ j < i + 3 ∧ j < lines.length ∧
      containsSub rupeeSym (lines.getD j "") = true ∧ extract_amount (lines.getD j "") = q ∧
      ∀ k, i ≤ k → k < j → tryTotalAt lines k = none := by
  obtain ⟨j, hj1, hj2, hj3, hfirst⟩ := window3_spec (tryTotalAt lines) i q h
  obtain ⟨hpos, hlen, hsym, hval⟩ := tryTotalAt_spec hj3
  exact ⟨hpos, j, hj1, hj2, hlen, hsym, hval, hfirst⟩

theorem primary_total_pos {lines : List String} {q : ℚ}
    (h : (extractAmounts lines).1 = some q) : 0 < q := by
  have h' : lastHit (totalHit lines) lines.length = some q := by
    rw [extractAmounts_eq] at h
    exact h
  rcases lastHit_spec (totalHit lines) lines.length with ⟨hnone, _⟩ | ⟨i, _, heq, _, _⟩
  · rw [hnone] at h'; cases h'
  · rw [heq] at h'
    unfold totalHit at h'
    by_cases hl : totalLblHit (lines.getD i "") = true
    · rw [if_pos hl] at h'
      exact (scanTotalWindow_spec h').1
    · rw [if_neg hl] at h'; cases h'

theorem pyStrip_subset {cs : List Char} {x : Char} (h : x ∈ pyStrip cs) : x ∈ cs := by
  unfold pyStrip at h
  rw [List.mem_reverse] at h
  have h1 := (List.dropWhile_sublist _).subset h
  rw [List.mem_reverse] at h1
  exact (List.dropWhile_sublist _).subset h1

theorem cleanAmount_subset {s : String} {x : Char} (h : x ∈ cleanAmount s) : x ∈ s.data := by
  unfold cleanAmount at h
  have h1 : x ∈ pyStrip ((s.data.filter (fun c => c ≠ '₹')).filter (fun c => c ≠ ',')) := by
    by_cases hh : (pyStrip ((s.data.filter (fun c => c ≠ '₹')).filter (fun c => c ≠ ','))).head?
        = some '-'
    · rw [if_pos hh] at h
      exact (List.tail_sublist _).subset h
    · rw [if_neg hh] at h
      exact h
  have h2 := pyStrip_subset h1
  exact List.mem_of_mem_filter (List.mem_of_mem_filter h2)

theorem pyFloatVal_one_nonneg (m k : Nat) (e : Int) : 0 ≤ pyFloatVal 1 m k e := by
  unfold pyFloatVal
  split_ifs <;> exact Rat.mkRat_nonneg (by positivity) _

theorem pyFloat_nonneg {cs : List Char} (hm : '-' ∉ cs) {q : ℚ}
    (h : pyFloat cs = some q) : 0 ≤ q := by
  unfold pyFloat at h
  have hhead : ¬ (pyStrip cs).head? = some '-' := by
    intro hh
    exact hm (pyStrip_subset (List.mem_of_mem_head? hh))
  rw [if_neg hhead] at h
  by_cases hplus : (pyStrip cs).head? = some '+'
  · rw [if_pos hplus] at h
    rw [Option.map_eq_some'] at h
    obtain ⟨mke, _, hv⟩ := h
    rw [← hv]
    exact pyFloatVal_one_nonneg _ _ _
  · rw [if_neg hplus] at h
    rw [Option.map_eq_some'] at h
    obtain ⟨mke, _, hv⟩ := h
    rw [← hv]
    exact pyFloatVal_one_nonneg _ _ _

theorem extract_amount_nonneg {s : String} (hm : '-' ∉ s.data) : 0 ≤ extract_amount s := by
  unfold extract_amount
  cases hp : pyFloat (cleanAmount s) with
  | none => exact le_refl 0
  | some q =>
    have : '-' ∉ cleanAmount s := fun hc => hm (cleanAmount_subset hc)
    exact pyFloat_nonneg this hp

theorem mem_takeWhile_pred (p : Char → Bool) {l : List Char} {x : Char}
    (hx : x ∈ List.takeWhile p l) : p x = true :=
  List.mem_takeWhile_imp hx

theorem matchRupeeAt_no_minus {cs tok : List Char} (h : matchRupeeAt cs = some tok) :
    '-' ∉ tok := by
  intro hmem
  cases cs with
  | nil => cases h
  | cons c rest =>
    simp only [matchRupeeAt] at h
    by_cases hc : c = '₹'
    · rw [if_pos hc] at h
      by_cases hd : List.takeWhile (fun c => c.isDigit || c = ',') (List.dropWhile isPySpace rest) = []
      · rw [if_pos hd] at h; cases h
      · rw [if_neg hd] at h
        have hws : ∀ x, x ∈ List.takeWhile isPySpace rest → isPySpace x = true := fun x hx =>
          mem_takeWhile_pred isPySpace hx
        have hdig : ∀ x,
            x ∈ List.takeWhile (fun c => c.isDigit || c = ',') (List.dropWhile isPySpace rest) →
            (x.isDigit || decide (x = ',')) = true := fun x hx =>
          mem_takeWhile_pred (fun c => c.isDigit || decide (c = ',')) hx
        -- case on the shape of the remainder after the digit run
        rcases hr2 : (rest.dropWhile isPySpace).dropWhile (fun c => c.isDigit || c = ',') with
          _ | ⟨d, r3⟩
        · rw [hr2] at h
          injection h with h
          rw [← h] at hmem
          rcases List.mem_cons.mp hmem with h' | h'
          · cases h'
          rcases List.mem_append.mp h' with h'' | h''
          · have := hws _ h''; simp [isPySpace] at this
          · have := hdig _ h''; simp at this
        · rcases r3 with _ | ⟨a, r4⟩
          · rw [hr2] at h
            injection h with h
            rw [← h] at hmem
            rcases List.mem_cons.mp hmem with h' | h'
            · cases h'
            rcases List.mem_append.mp h' with h'' | h''
            · have := hws _ h''; simp [isPySpace] at this
            · have := hdig _ h''; simp at this
          · rcases r4 with _ | ⟨b, r5⟩
            · rw [hr2] at h
              injection h with h
              rw [← h] at hmem
              rcases List.mem_cons.mp hmem with h' | h'
              · cases h'
              rcases List.mem_append.mp h' with h'' | h''
              · have := hws _ h''; simp [isPySpace] at this
              · have := hdig _ h''; simp at this
            · rw [hr2] at h
              dsimp only at h
              by_cases hfr : d = '.' ∧ a.isDigit ∧ b.isDigit
              · rw [if_pos hfr] at h
                injection h with h
                rw [← h] at hmem
                rcases List.mem_cons.mp hmem with h' | h'
                · cases h'
                rcases List.mem_append.mp h' with h'' | h''
                · rcases List.mem_append.mp h'' with h3 | h3
                  · have := hws _ h3; simp [isPySpace] at this
                  · have := hdig _ h3; simp at this
                · rcases List.mem_cons.mp h'' with h3 | h3
                  · exact absurd h3 (by decide)
                  rcases List.mem_cons.mp h3 with h4 | h4
                  · have ha := hfr.2.1
                    rw [← h4] at ha
                    exact absurd ha (by decide)
                  rcases List.mem_cons.mp h4 with h5 | h5
                  · have hb := hfr.2.2
                    rw [← h5] at hb
                    exact absurd hb (by decide)
                  · cases h5
              · rw [if_neg hfr] at h
                injection h with h
                rw [← h] at hmem
                rcases List.mem_cons.mp hmem with h' | h'
                · cases h'
                rcases List.mem_append.mp h' with h'' | h''
                · have := hws _ h''; simp [isPySpace] at this
                · have := hdig _ h''; simp at this
    · rw [if_neg hc] at h; cases h

theorem firstRupeeTok_no_minus : ∀ {cs tok : List Char}, firstRupeeTok cs = some tok →
    '-' ∉ tok := by
  intro cs
  induction cs with
  | nil => intro tok h; cases h
  | cons c rest ih =>
    intro tok h
    unfold firstRupeeTok at h
    cases hm : matchRupeeAt (c :: rest) with
    | some m =>
      rw [hm] at h
      injection h with h
      rw [← h]
      exact matchRupeeAt_no_minus hm
    | none =>
      rw [hm] at h
      exact ih h

theorem fallbackTotal_nonneg : ∀ {lines : List String} {q : ℚ},
    fallbackTotal lines = some q → 0 ≤ q := by
  intro lines
  induction lines with
  | nil => intro q h; cases h
  | cons l rest ih =>
    intro q h
    unfold fallbackTotal at h
    by_cases hl : fallbackLblHit l = true
    · rw [if_pos hl] at h
      cases htok : firstRupeeTok l.data with
      | some tok =>
        rw [htok] at h
        injection h with h
        rw [← h]
        exact extract_amount_nonneg (firstRupeeTok_no_minus htok)
      | none =>
        rw [htok] at h
        exact ih h
    · rw [if_neg hl] at h
      exact ih h

theorem parseLines_eq_some {lines : List String} {r : OrderInfo}
    (h : parseLines lines = some r) :
    r = extractOrderInfo lines ∧ validOrder r = true := by
  unfold parseLines at h
  by_cases hv : validOrder (extractOrderInfo lines) = true
  · rw [if_pos hv] at h
    injection h with h
    rw [h] at hv
    exact ⟨h.symm, hv⟩
  · rw [if_neg hv] at h; cases h

theorem validOrder_spec {r : OrderInfo} (h : validOrder r = true) :
    (∃ n, r.restaurant_name = some n ∧ n ≠ "") ∧ r.order_time.isSome = true ∧
      r.delivery_time.isSome = true ∧ r.total_amount.isSome = true := by
  unfold validOrder at h
  cases hr : r.restaurant_name with
  | none => rw [hr] at h; simp at h
  | some n =>
    rw [hr] at h
    simp only [Bool.and_eq_true, decide_eq_true_eq] at h
    exact ⟨⟨n, rfl, h.1.1.1⟩, h.1.1.2, h.1.2, h.2⟩

theorem extractOrderInfo_total_eq (lines : List String) :
    (extractOrderInfo lines).total_amount =
      (match (extractAmounts lines).1 with
       | some v => some v
       | none => fallbackTotal lines) := by
  have hdef : (extractOrderInfo lines).total_amount =
      (if pyFalsyTotal (extractAmounts lines).1 then
        (match fallbackTotal lines with
         | some v => some v
         | none => (extractAmounts lines).1)
      else (extractAmounts lines).1) := rfl
  rw [hdef]
  cases hpt : (extractAmounts lines).1 with
  | some v =>
    have hpos := primary_total_pos hpt
    have hfal : pyFalsyTotal (some v) = false := by
      show (if v = 0 then true else false) = false
      rw [if_neg (ne_of_gt hpos)]
    rw [hfal]
    simp
  | none =>
    have hfal : pyFalsyTotal none = true := rfl
    rw [hfal]
    cases fallbackTotal lines <;> simp

theorem getD_mem_of_lt {lines : List String} {i : Nat} (h : i < lines.length) :
    lines.getD i "" ∈ lines := by
  cases hg : lines.get? i with
  | none =>
    rw [List.get?_eq_none] at hg
    omega
  | some l =>
    have hD : lines.getD i "" = l := by rw [List.getD_eq_get?, hg]; rfl
    rw [hD]
    exact List.get?_mem hg

theorem parse_datetime_none_of_no_weekday {s : String}
    (h : matchNameTbl weekdayTbl (normChars s) = none) : parse_datetime s = none := by
  unfold parse_datetime
  rw [h]

theorem placedHit_window {lines : List String} {i : Nat} {v : DateTime}
    (h : placedHit lines i = some v) :
    ∃ j, i ≤ j ∧ j < i + 3 ∧ tryTimeAt placedLbl lines j = some v ∧
      ∀ k, i ≤ k → k < j → tryTimeAt placedLbl lines k = none := by
  unfold placedHit at h
  by_cases hl : containsSub placedLbl (lines.getD i "") = true
  · rw [if_pos hl] at h
    exact window3_spec (tryTimeAt placedLbl lines) i v h
  · rw [if_neg hl] at h; cases h

theorem deliveredHit_window {lines : List String} {i : Nat} {v : DateTime}
    (h : deliveredHit lines i = some v) :
    ∃ j, i ≤ j ∧ j < i + 3 ∧ tryTimeAt deliveredLbl lines j = some v ∧
      ∀ k, i ≤ k → k < j → tryTimeAt deliveredLbl lines k = none := by
  unfold deliveredHit at h
  by_cases hl : ¬ containsSub placedLbl (lines.getD i "") = true ∧
      containsSub deliveredLbl (lines.getD i "") = true
  · rw [if_pos hl] at h
    exact window3_spec (tryTimeAt deliveredLbl lines) i v h
  · rw [if_neg hl] at h; cases h

theorem totalHit_window {lines : List String} {i : Nat} {v : ℚ}
    (h : totalHit lines i = some v) :
    ∃ j, i ≤ j ∧ j < i + 3 ∧ tryTotalAt lines j = some v ∧
      ∀ k, i ≤ k → k < j → tryTotalAt lines k = none := by
  unfold totalHit at h
  by_cases hl : totalLblHit (lines.getD i "") = true
  · rw [if_pos hl] at h
    exact window3_spec (tryTotalAt lines) i v h
  · rw [if_neg hl] at h; cases h

theorem discHit_window {lines : List String} {i : Nat} {v : ℚ}
    (h : discHit lines i = some v) :
    ∃ j, i ≤ j ∧ j < i + 3 ∧ tryDiscAt lines j = some v ∧
      ∀ k, i ≤ k → k < j → tryDiscAt lines k = none := by
  unfold discHit at h
  by_cases hl : containsSub "Discount Applied" (lines.getD i "") = true
  · rw [if_pos hl] at h
    exact window3_spec (tryDiscAt lines) i v h
  · rw [if_neg hl] at h; cases h

/-- Either no index of `0, …, n-1` hits, or the result is the hit of the
last index that does: this is the corrected overwrite semantics of the
scan loops. -/
def lastOccurrenceWins (f : Nat → Option α) (n : Nat) (res : Option α) : Prop :=
  (res = none ∧ ∀ i, i < n → f i = none) ∨
  (∃ i, i < n ∧ res = f i ∧ (f i).isSome = true ∧ ∀ j, i < j → j < n → f j = none)

/-- Corrected behaviour of the four windowed marker scans: within one
label occurrence the bounded three-line window applies and the first
window line accepted wins, but across occurrences the scan keeps going
and every later successful occurrence overwrites the value — the last
successful occurrence determines the field. -/
def markerScanSpec (lines : List String) : Prop :=
  lastOccurrenceWins (placedHit lines) lines.length (extractOrderInfo lines).order_time ∧
  lastOccurrenceWins (deliveredHit lines) lines.length (extractOrderInfo lines).delivery_time ∧
  lastOccurrenceWins (totalHit lines) lines.length (extractAmounts lines).1 ∧
  (extractOrderInfo lines).discount_amount = (lastHit (discHit lines) lines.length).getD 0 ∧
  lastOccurrenceWins (discHit lines) lines.length (lastHit (discHit lines) lines.length) ∧
  (∀ i v, placedHit lines i = some v → ∃ j, i ≤ j ∧ j < i + 3 ∧
    tryTimeAt placedLbl lines j = some v ∧
    ∀ k, i ≤ k → k < j → tryTimeAt placedLbl lines k = none) ∧
  (∀ i v, deliveredHit lines i = some v → ∃ j, i ≤ j ∧ j < i + 3 ∧
    tryTimeAt deliveredLbl lines j = some v ∧
    ∀ k, i ≤ k → k < j → tryTimeAt deliveredLbl lines k = none) ∧
  (∀ i v, totalHit lines i = some v → ∃ j, i ≤ j ∧ j < i + 3 ∧
    tryTotalAt lines j = some v ∧ ∀ k, i ≤ k → k < j → tryTotalAt lines k = none) ∧
  (∀ i v, discHit lines i = some v → ∃ j, i ≤ j ∧ j < i + 3 ∧
    tryDiscAt lines j = some v ∧ ∀ k, i ≤ k → k < j → tryDiscAt lines k = none)

/-- Two lines both carrying the order-time label, with different
timestamps: the extracted value comes from the second occurrence. -/
def c6Lines : List String :=
  ["Order placed at: Monday, March 3, 2025 1:00 PM",
   "Order placed at: Monday, March 3, 2025 2:00 PM"]

example : parse_datetime "Monday, March 3, 2025 2:45 PM" = some ⟨2025, 3, 3, 14, 45⟩ := by decide
example : parse_datetime "Monday, March 3, 2025 1:00 PM" = some ⟨2025, 3, 3, 13, 0⟩ := by decide
example : parse_datetime "March 3, 2025 2:45 PM" = none := by decide
example : parse_datetime "Monday, March 3, 2025 14:45" = none := by decide
example : extract_amount "₹1,234.50" = mkRat 2469 2 := by decide
example : extract_amount "-₹50.00" = 50 := by decide
example : extract_amount "₹350.00" = 350 := by decide
example : extract_amount "Discount Applied: -₹20.00" = 0 := by decide
example : extract_amount "--₹5.00" = mkRat (-5) 1 := by decide
example : extract_amount "" = 0 := by decide
example : extract_amount "N/A" = 0 := by decide
example : parseLines demoLines = some demoRecord := by decide
example : (parseLines demoLinesSwapped).map (fun r => r.delivery_duration_mins) =
    some (some (-40)) := by decide
example : parseLines [] = none := by decide
example : fallbackTotal ["Order Total: ₹0.00"] = some 0 := by decide

/-- Normalizer used for the pipeline scenarios: the body `"good"`
stands for a mail whose HTML normalizes to the scenario lines; any other
body normalizes to itself as a single line. -/
def bug2Normalize : String → List String :=
  fun b => if b = "good" then demoLines else [b]

/-- Fetch oracle for the pipeline scenarios: `"m1"` resolves to an
unparseable body, `"m2"` to a parseable one, anything else fails to
fetch. -/
def bug2Details : String → Option EmailData := fun mid =>
  if mid = "m1" then some ⟨"s1", "noreply@swiggy.in", "d1", "hello"⟩
  else if mid = "m2" then some ⟨"s2", "noreply@swiggy.in", "d2", "good"⟩
  else none

/-! ### The claims -/

/-- C1: every record returned by `parse_email` has a nonempty restaurant
name, both timestamps present, and a non-null total amount; no record
with a required field missing is ever returned (validation gate at
`email_text_parser.py` lines 125-132). -/
theorem claim1_no_partial_records (lines : List String) (r : OrderInfo)
    (h : parseLines lines = some r) :
    (∃ n, r.restaurant_name = some n ∧ n ≠ "") ∧ r.order_time.isSome = true ∧
      r.delivery_time.isSome = true ∧ r.total_amount.isSome = true :=
  validOrder_spec (parseLines_eq_some h).2

/-- Witness for C1 at the end-to-end scenario lines. -/
theorem claim1_witness :
    (∃ n, demoRecord.restaurant_name = some n ∧ n ≠ "") ∧
      demoRecord.order_time.isSome = true ∧ demoRecord.delivery_time.isSome = true ∧
      demoRecord.total_amount.isSome = true :=
  claim1_no_partial_records demoLines demoRecord (by decide)

/-- C2 (code bug): when an item's body fails to parse, `run_pipeline`
does not record it and continue — the recovery path at
`data_pipeline.py` line 71 calls `parse_email(email_body, debug=True)`,
an argument `parse_email` does not accept, so the run aborts with a
`TypeError` before the item reaches `failed_emails` (line 75) and before
any later message is processed; a fetch failure (second conjunct with
only the unknown id `"m3"`) is skipped without entering the failure
list. -/
theorem claim2_pipeline_abort :
    run_pipeline bug2Normalize bug2Details ["m1", "m2"] = Except.error debugCallError ∧
    run_pipeline bug2Normalize bug2Details ["m2"] =
      Except.ok ⟨[("m2", demoRecord)], []⟩ ∧
    run_pipeline bug2Normalize bug2Details ["m3"] = Except.ok ⟨[], []⟩ :=
  ⟨rfl, rfl, rfl⟩

/-- C3: the end-to-end scenario produces exactly the stated record; the
derived duration is present iff both timestamps are present and equals
the signed difference of the timestamps in minutes; inverted timestamps
yield a negative duration without the record being rejected. -/
theorem claim3_scenario_and_duration :
    parseLines demoLines =
      some ⟨some "Spice Hub", some ⟨2025, 3, 3, 13, 0⟩, some ⟨2025, 3, 3, 13, 40⟩,
        some 40, some 350, 0⟩ ∧
    (∀ lines, ((extractOrderInfo lines).delivery_duration_mins.isSome = true ↔
        ((extractOrderInfo lines).order_time.isSome = true ∧
         (extractOrderInfo lines).delivery_time.isSome = true)) ∧
      (∀ a b, (extractOrderInfo lines).order_time = some a →
        (extractOrderInfo lines).delivery_time = some b →
        (extractOrderInfo lines).delivery_duration_mins =
          some ((toMinutes b : Int) - (toMinutes a : Int)))) ∧
    (parseLines demoLinesSwapped).map (fun r => r.delivery_duration_mins) =
      some (some (-40)) := by
  refine ⟨by decide, ?_, by decide⟩
  intro lines
  have hdur : (extractOrderInfo lines).delivery_duration_mins =
      (match (extractTimes lines).1, (extractTimes lines).2 with
       | some a, some b => some ((toMinutes b : Int) - (toMinutes a : Int))
       | _, _ => none) := rfl
  have hot : (extractOrderInfo lines).order_time = (extractTimes lines).1 := rfl
  have hdt : (extractOrderInfo lines).delivery_time = (extractTimes lines).2 := rfl
  constructor
  · rw [hdur, hot, hdt]
    cases (extractTimes lines).1 <;> cases (extractTimes lines).2 <;> simp
  · intro a b ha hb
    rw [hot] at ha
    rw [hdt] at hb
    rw [hdur, ha, hb]

/-- Witness for C3's general duration equation at the scenario lines. -/
theorem claim3_witness :
    (extractOrderInfo demoLines).delivery_duration_mins =
      some ((toMinutes ⟨2025, 3, 3, 13, 40⟩ : Int) - (toMinutes ⟨2025, 3, 3, 13, 0⟩ : Int)) :=
  (claim3_scenario_and_duration.2.1 demoLines).2 ⟨2025, 3, 3, 13, 0⟩ ⟨2025, 3, 3, 13, 40⟩
    (by decide) (by decide)

/-- C4: the timestamp grammar accepts the canonical form (with the
12-hour value folded to hour 14, minute 45), rejects a string missing
the weekday and a string in 24-hour form, and any string whose start
matches no weekday name yields `None` rather than an error. -/
theorem claim4_timestamp_grammar :
    parse_datetime "Monday, March 3, 2025 2:45 PM" = some ⟨2025, 3, 3, 14, 45⟩ ∧
    parse_datetime "March 3, 2025 2:45 PM" = none ∧
    parse_datetime "Monday, March 3, 2025 14:45" = none ∧
    (∀ s, matchNameTbl weekdayTbl (normChars s) = none → parse_datetime s = none) :=
  ⟨by decide, by decide, by decide, fun _ h => parse_datetime_none_of_no_weekday h⟩

/-- Witness for C4's general rejection clause. -/
theorem claim4_witness : parse_datetime "2025-03-03 14:45" = none :=
  claim4_timestamp_grammar.2.2.2 "2025-03-03 14:45" (by decide)

/-- C5: the amount parser strips the symbol, the thousands separators
and one leading minus: `"₹1,234.50"` gives `1234.50` and `"-₹50.00"`
gives the non-negative `50.00`; every input whose cleaned remainder
fails the float conversion gives `0.0` instead of an error. -/
theorem claim5_amount_parsing :
    extract_amount "₹1,234.50" = mkRat 123450 100 ∧
    extract_amount "-₹50.00" = 50 ∧
    extract_amount "" = 0 ∧
    extract_amount "N/A" = 0 ∧
    (∀ s, pyFloat (cleanAmount s) = none → extract_amount s = 0) := by
  refine ⟨by decide, by decide, by decide, by decide, ?_⟩
  intro s h
  unfold extract_amount
  rw [h]

/-- Witness for C5's failure clause. -/
theorem claim5_witness : extract_amount "xyz" = 0 :=
  claim5_amount_parsing.2.2.2.2 "xyz" (by decide)

/-- C6 counterexample: both lines carry the order-time label and both
windows succeed; the claim says the value comes from the first such
line (13:00), but the extracted value is the second occurrence's
timestamp (14:00). -/
theorem claim6_counterexample :
    containsSub placedLbl (c6Lines.getD 0 "") = true ∧
    scanTimeWindow placedLbl c6Lines 0 = some ⟨2025, 3, 3, 13, 0⟩ ∧
    (extractOrderInfo c6Lines).order_time = some ⟨2025, 3, 3, 14, 0⟩ ∧
    some (⟨2025, 3, 3, 14, 0⟩ : DateTime) ≠ some (⟨2025, 3, 3, 13, 0⟩ : DateTime) := by
  decide

/-- C6 (amended): each windowed scan searches only the bounded window
(label line plus next two lines) and the first window line accepted
wins within one occurrence, but later label occurrences whose window
succeeds overwrite the value — the last successful occurrence wins. -/
theorem claim6_marker_scan_amended (lines : List String) : markerScanSpec lines := by
  have hot : (extractOrderInfo lines).order_time = lastHit (placedHit lines) lines.length := by
    show (extractTimes lines).1 = _
    rw [extractTimes_eq]
  have hdt : (extractOrderInfo lines).delivery_time =
      lastHit (deliveredHit lines) lines.length := by
    show (extractTimes lines).2 = _
    rw [extractTimes_eq]
  have hta : (extractAmounts lines).1 = lastHit (totalHit lines) lines.length := by
    rw [extractAmounts_eq]
    rfl
  refine ⟨?_, ?_, ?_, ?_, ?_, ?_, ?_, ?_, ?_⟩
  · rw [hot]; exact lastHit_spec _ _
  · rw [hdt]; exact lastHit_spec _ _
  · rw [hta]; exact lastHit_spec _ _
  · exact discount_eq_lastHit lines
  · exact lastHit_spec _ _
  · exact fun i v h => placedHit_window h
  · exact fun i v h => deliveredHit_window h
  · exact fun i v h => totalHit_window h
  · exact fun i v h => discHit_window h

/-- Witness for C6's amended scan characterization at the
double-label lines. -/
theorem claim6_witness : markerScanSpec c6Lines :=
  claim6_marker_scan_amended c6Lines

/-- C7: the primary total scan accepts a window line only if it holds
the currency symbol and a positive extracted amount; the final total is
the primary value whenever the primary pass found one and the fallback
value exactly when it did not, so the looser pass never overrides a
primary match. -/
theorem claim7_total_primary_and_fallback (lines : List String) :
    (∀ i q, scanTotalWindow lines i = some q →
      0 < q ∧ ∃ j, i ≤ j ∧ j < i + 3 ∧ j < lines.length ∧
        containsSub rupeeSym (lines.getD j "") = true ∧
        extract_amount (lines.getD j "") = q) ∧
    (extractOrderInfo lines).total_amount =
      (match (extractAmounts lines).1 with
       | some v => some v
       | none => fallbackTotal lines) := by
  constructor
  · intro i q h
    obtain ⟨hpos, j, h1, h2, h3, h4, h5, _⟩ := scanTotalWindow_spec h
    exact ⟨hpos, j, h1, h2, h3, h4, h5⟩
  · exact extractOrderInfo_total_eq lines

/-- Witness for C7's primary-scan clause at the scenario lines. -/
theorem claim7_witness :
    0 < (350 : ℚ) ∧ ∃ j, 6 ≤ j ∧ j < 6 + 3 ∧ j < demoLines.length ∧
      containsSub rupeeSym (demoLines.getD j "") = true ∧
      extract_amount (demoLines.getD j "") = 350 :=
  (claim7_total_primary_and_fallback demoLines).1 6 350 (by decide)

/-- Record with a doubly-negated discount line: the single leading minus
is stripped, the float conversion still sees a signed numeral, and the
stored discount is `-5 < 0`. -/
def negDiscLines : List String := demoLines ++ ["Discount Applied", "--₹5.00"]

/-- C8 counterexample: a returned record whose `discount_amount` is
negative, refuting `discount_amount ≥ 0`. -/
theorem claim8_counterexample :
    (parseLines negDiscLines).map (fun r => r.discount_amount) = some (mkRat (-5) 1) ∧
    mkRat (-5) 1 < 0 := by decide

/-- C8 (amended): in every returned record `total_amount ≥ 0`, and
`discount_amount` is `0.0` (its never-null default) when no line carries
the discount marker; `discount_amount ≥ 0` does *not* hold in general
(see the counterexample). -/
theorem claim8_amounts_amended (lines : List String) (r : OrderInfo)
    (h : parseLines lines = some r) :
    (∃ q, r.total_amount = some q ∧ 0 ≤ q) ∧
    ((∀ l, l ∈ lines → containsSub "Discount Applied" l = false) →
      r.discount_amount = 0) := by
  obtain ⟨hr, hv⟩ := parseLines_eq_some h
  subst hr
  constructor
  · obtain ⟨_, _, _, htot⟩ := validOrder_spec hv
    rw [extractOrderInfo_total_eq] at htot ⊢
    cases hpt : (extractAmounts lines).1 with
    | some v =>
      exact ⟨v, rfl, le_of_lt (primary_total_pos hpt)⟩
    | none =>
      cases hf : fallbackTotal lines with
      | some w =>
        exact ⟨w, rfl, fallbackTotal_nonneg hf⟩
      | none =>
        rw [hpt, hf] at htot
        cases htot
  · intro hno
    show (extractAmounts lines).2 = 0
    rw [discount_eq_lastHit]
    rcases lastHit_spec (discHit lines) lines.length with ⟨hn, _⟩ | ⟨i, hi, _, hsome, _⟩
    · rw [hn]; rfl
    · exfalso
      have hcond : containsSub "Discount Applied" (lines.getD i "") = false :=
        hno _ (getD_mem_of_lt hi)
      unfold discHit at hsome
      rw [if_neg (by rw [hcond]; exact Bool.false_ne_true)] at hsome
      cases hsome

/-- Witness for C8's amended statement at the scenario lines (which
carry no discount marker). -/
theorem claim8_witness :
    (∃ q, demoRecord.total_amount = some q ∧ 0 ≤ q) ∧
    ((∀ l, l ∈ demoLines → containsSub "Discount Applied" l = false) →
      demoRecord.discount_amount = 0) :=
  claim8_amounts_amended demoLines demoRecord (by decide)

/-- C9: the extraction engine is a total function of its input — the
embedding has no exceptional exit at all — an empty body yields `None`,
and on every input the result is either `None` (rejection at the
validator) or a record that passes the validator; all field-level
failures inside are `Option`/`0.0` values, never errors. -/
theorem claim9_no_throw :
    (∀ normalize : String → List String, parse_email normalize "" = none) ∧
    (∀ (normalize : String → List String) (s : String),
      parse_email normalize s = none ∨
        ∃ r, parse_email normalize s = some r ∧ validOrder r = true) := by
  constructor
  · intro normalize
    unfold parse_email
    rw [if_pos rfl]
  · intro normalize s
    unfold parse_email
    by_cases hs : s = ""
    · rw [if_pos hs]
      left
      rfl
    · rw [if_neg hs]
      unfold parseLines
      by_cases hvv : validOrder (extractOrderInfo (normalize s)) = true
      · right
        exact ⟨_, by rw [if_pos hvv], hvv⟩
      · left
        rw [if_neg hvv]

/-- Lines of the implicit single-line discount scenario: the label and
its negative amount share one line, followed by a well-formed amount
line inside the same window. -/
def discLines : List String := demoLines ++ ["Discount Applied: -₹20.00", "-₹30.00"]

/-- C10: the combined label-and-amount line passes the window check
(currency symbol and minus present), `extract_amount` applied to the
whole line fails to a `0.0` discount, and the scan stops there, so the
well-formed `"-₹30.00"` on the next window line (worth `30`) is not
used. -/
theorem claim10_discount_same_line :
    containsSub rupeeSym "Discount Applied: -₹20.00" = true ∧
    containsSub "-" "Discount Applied: -₹20.00" = true ∧
    extract_amount "Discount Applied: -₹20.00" = 0 ∧
    extract_amount "-₹30.00" = 30 ∧
    (parseLines discLines).map (fun r => r.discount_amount) = some 0 := by
  decide

end Swiggy
